import Mathlib

/-!
Verification of the persistent upsert engine of the stock-note tool
(`src/main.py`): the date-keyed merge `ExcelHandler.merge_and_write_data`,
the sheet-name resolver `ExcelHandler.build_sheet_name`, the table/chart
binder `ExcelHandler.ensure_table_and_chart`, the fetch-side moving-average
computation of `DataManager.fetch_stock_data`, and the locked-file save loop
`StockLoggerApp.save_workbook_safely`.

Modelling conventions:
* Calendar dates are encoded as natural numbers `y * 10000 + m * 100 + d`;
  with `m ≤ 12` and `d ≤ 31` this encoding is strictly monotone in the
  lexicographic (year, month, day) order, so `Nat` order is date order.
* A worksheet body is the list of rows from worksheet row 4 (`BODY_START`)
  downwards, each row being the fixed 7-column Region layout
  (date, close, open, high, low, 5-day mean, 25-day mean) that
  `setup_worksheet_header` establishes.  List index `i` is worksheet row
  `4 + i`.
* Python floats are modelled as rationals; the pandas `NaN` produced by a
  rolling mean with insufficient history is the distinguished cell `nanVal`.
* The Python `dict` used by the merge is modelled as an association list
  with insertion-order update semantics (`updateMap`).
-/

/-- A spreadsheet cell value as the merge code can encounter it:
empty (`None`), a date, a datetime, a number, the float `NaN`, or text. -/
inductive Cell where
  | empty
  | dateVal (d : Nat)
  | datetimeVal (d : Nat)
  | numVal (q : ℚ)
  | nanVal
  | strVal (s : List Char)
deriving DecidableEq

/-- One body row of a Region in the fixed 7-column layout. -/
structure Row where
  dateC : Cell
  closeC : Cell
  openC : Cell
  highC : Cell
  lowC : Cell
  ma5C : Cell
  ma25C : Cell
deriving DecidableEq

/-- Python truthiness of a cell value: `if not raw_val: continue` skips
`None`, numeric zero and the empty string (`NaN` and any date are truthy). -/
def Cell.isFalsy : Cell → Bool
  | .empty => true
  | .numVal q => q = 0
  | .strVal s => s = []
  | _ => false

/-- Split a character list at every occurrence of `sep`, like Python
`str.split(sep)` with an explicit single-character separator. -/
def splitOnChar (sep : Char) : List Char → List (List Char)
  | [] => [[]]
  | c :: rest =>
    let r := splitOnChar sep rest
    if c = sep then [] :: r
    else
      match r with
      | [] => [[c]]
      | g :: gs => (c :: g) :: gs

/-- Parse a non-empty all-digit character list as a natural number, the way
`strptime`'s `%Y`/`%m`/`%d` directives consume digit runs. -/
def digitsToNat? : List Char → Option Nat
  | [] => none
  | cs =>
    if cs.all Char.isDigit then
      some (cs.foldl (fun n c => n * 10 + (c.toNat - '0'.toNat)) 0)
    else none

/-- The string branch of the merge's date normalisation:
`datetime.strptime(raw_val.replace("/", "-").split(" ")[0], "%Y-%m-%d").date()`,
returning `none` where the Python code catches the `ValueError`.
Dates are encoded as `y * 10000 + m * 100 + d`. -/
def parse_date_string (s : List Char) : Option Nat :=
  let t := (splitOnChar ' ' (s.map (fun c => if c = '/' then '-' else c))).headD []
  match splitOnChar '-' t with
  | [ys, ms, ds] =>
    match digitsToNat? ys, digitsToNat? ms, digitsToNat? ds with
    | some y, some m, some d =>
      if 1 ≤ y ∧ 1 ≤ m ∧ m ≤ 12 ∧ 1 ≤ d ∧ d ≤ 31 then
        some (y * 10000 + m * 100 + d)
      else none
    | _, _, _ => none
  | _ => none

/-- The type dispatch of `merge_and_write_data` on the first cell of an
existing body row: a `datetime` contributes its date part, a `date` itself,
a string is parsed, anything else yields no key. -/
def date_key : Cell → Option Nat
  | .datetimeVal d => some d
  | .dateVal d => some d
  | .strVal s => parse_date_string s
  | _ => none

/-- Full per-row key extraction: the falsy guard followed by `date_key`. -/
def read_key (c : Cell) : Option Nat :=
  if c.isFalsy then none else date_key c

/-- Python-`dict` update on an association list: replace the value at an
existing key in place, otherwise append the new binding at the end. -/
def updateMap : List (Nat × Row) → Nat → Row → List (Nat × Row)
  | [], d, r => [(d, r)]
  | (k, v) :: rest, d, r =>
    if k = d then (k, r) :: rest else (k, v) :: updateMap rest d r

/-- Key lookup in the association-list model of the merge `dict`. -/
def lookupMap : List (Nat × Row) → Nat → Option Row
  | [], _ => none
  | (k, v) :: rest, d => if k = d then some v else lookupMap rest d

/-- Step 1 of `merge_and_write_data` for one existing row: skip rows without
a usable date key, otherwise store the row under that key with the date cell
normalised to a date value (`row_list[0] = d_key`). -/
def read_row (m : List (Nat × Row)) (r : Row) : List (Nat × Row) :=
  match read_key r.dateC with
  | none => m
  | some d => updateMap m d { r with dateC := .dateVal d }

/-- Step 1 of `merge_and_write_data`: load every existing body row into the
date-keyed map, in worksheet order. -/
def read_body (body : List Row) : List (Nat × Row) :=
  body.foldl read_row []

/-- One row of the fetched DataFrame after `fetch_stock_data`: close, open,
high, low plus the two derived rolling means (absent for insufficient
history, where pandas produces `NaN`). -/
structure FetchedRow where
  fdate : Nat
  closeV : ℚ
  openV : ℚ
  highV : ℚ
  lowV : ℚ
  ma5V : Option ℚ
  ma25V : Option ℚ
deriving DecidableEq

/-- A rolling-mean DataFrame column entry written into a cell: a defined mean
is a number, an undefined one is the float `NaN`. -/
def ma_cell : Option ℚ → Cell
  | none => .nanVal
  | some q => .numVal q

/-- The `new_row` list built by step 2 of `merge_and_write_data` for one
fetched DataFrame row. -/
def new_row (fr : FetchedRow) : Row :=
  { dateC := .dateVal fr.fdate
    closeC := .numVal fr.closeV
    openC := .numVal fr.openV
    highC := .numVal fr.highV
    lowC := .numVal fr.lowV
    ma5C := ma_cell fr.ma5V
    ma25C := ma_cell fr.ma25V }

/-- Step 2 of `merge_and_write_data`: upsert every fetched row into the map
(`data_map[d] = new_row`, overwrite or append). -/
def merge_fetched (m : List (Nat × Row)) (df : List FetchedRow) : List (Nat × Row) :=
  df.foldl (fun acc fr => updateMap acc fr.fdate (new_row fr)) m

/-- The keyed map after steps 1 and 2 of `merge_and_write_data`. -/
def merged_map (body : List Row) (df : List FetchedRow) : List (Nat × Row) :=
  merge_fetched (read_body body) df

/-- The ascending key order used by `sorted(data_map.keys())`. -/
def sorted_dates (m : List (Nat × Row)) : List Nat :=
  (m.map Prod.fst).insertionSort (· ≤ ·)

/-- Placeholder row for the (impossible) case of a sorted key missing from
the map; mirrors that `data_map[d]` is total on `data_map.keys()`. -/
def default_row : Row :=
  ⟨.empty, .empty, .empty, .empty, .empty, .empty, .empty⟩

/-- Step 3 of `merge_and_write_data`: the merged rows in ascending date
order, as written back to the worksheet body. -/
def written_rows (m : List (Nat × Row)) : List Row :=
  (sorted_dates m).map (fun d => (lookupMap m d).getD default_row)

/-- The fixed body-start worksheet row: `iter_rows(min_row=4)` on read and
`current_row = 4` on write. -/
def BODY_START : Nat := 4

/-- The write loop of step 3: successive `(current_row, values)` cell-row
assignments, starting at `current_row = 4` and incrementing by one. -/
def write_loop : Nat → List Row → List (Nat × Row)
  | _, [] => []
  | cur, r :: rs => (cur, r) :: write_loop (cur + 1) rs

/-- The positioned writes performed by step 3 of `merge_and_write_data`. -/
def write_positions (m : List (Nat × Row)) : List (Nat × Row) :=
  write_loop BODY_START (written_rows m)

/-- The body as it stands after step 3's writes but before the surplus-row
deletion: the first `written` rows are overwritten, rows beyond them still
hold their previous content. -/
def pre_deletion_rows (body : List Row) (df : List FetchedRow) : List Row :=
  let w := written_rows (merged_map body df)
  w ++ body.drop w.length

/-- `ExcelHandler.merge_and_write_data` on the body of a Region whose three
header rows are in place: read the existing rows (step 1), upsert the
fetched rows (step 2), write back sorted (step 3), then delete the surplus
trailing rows (`ws.max_row` is `3 + max(old, new)` rows, `current_row` is
`4 + new`; `delete_rows` fires when the former reaches the latter). -/
def merge_and_write_data (body : List Row) (df : List FetchedRow) : List Row :=
  let w := written_rows (merged_map body df)
  let afterWrite := w ++ body.drop w.length
  if 3 + max body.length w.length ≥ 4 + w.length then
    afterWrite.take w.length
  else
    afterWrite

/-- The row the merged Region holds at date `d`: the first body row whose
date cell is that date. -/
def row_at (rows : List Row) (d : Nat) : Option Row :=
  rows.find? (fun r => decide (r.dateC = Cell.dateVal d))

/-- One raw OHLC row as returned by the market-data client before the
moving-average columns are added. -/
structure RawRow where
  rdate : Nat
  closeR : ℚ
  openR : ℚ
  highR : ℚ
  lowR : ℚ
deriving DecidableEq

/-- pandas `Series.rolling(window=w).mean()` at position `i`: undefined
(`NaN`) while fewer than `w` observations exist, otherwise the mean of the
last `w` closes of the fetched window. -/
def rolling_mean (closes : List ℚ) (w : Nat) (i : Nat) : Option ℚ :=
  if i + 1 < w then none
  else some ((((List.range w).map (fun j => closes.getD (i + 1 - w + j) 0)).sum) / (w : ℚ))

/-- `DataManager.fetch_stock_data` after retrieval: attach the `MA5` and
`MA25` rolling-mean columns, computed over the fetched window only. -/
def fetch_stock_data (raw : List RawRow) : List FetchedRow :=
  let closes := raw.map RawRow.closeR
  raw.enum.map (fun p =>
    { fdate := p.2.rdate
      closeV := p.2.closeR
      openV := p.2.openR
      highV := p.2.highR
      lowV := p.2.lowR
      ma5V := rolling_mean closes 5 p.1
      ma25V := rolling_mean closes 25 p.1 })

/-- How a cell survives the save to disk: openpyxl serialises a non-finite
float (the pandas `NaN`) as a cell with no value, so a `NaN` mean is
persisted as an empty cell; every other value is persisted as itself. -/
def persistCell : Cell → Cell
  | .nanVal => .empty
  | c => c

/-- The worksheet-name characters Excel forbids, replaced in
`build_sheet_name`. -/
def BAD_CHARS : List Char := [':', '\\', '/', '?', '*', '[', ']']

/-- One `base.replace(bad, "_")` pass: a single-character replacement is a
character-wise map. -/
def replaceChar (bad : Char) (s : List Char) : List Char :=
  s.map (fun c => if c = bad then '_' else c)

/-- `ExcelHandler.build_sheet_name`: join ticker and display name (the bare
ticker when the name is empty), replace each forbidden character by `_`,
then truncate to Excel's 31-character sheet-name limit. -/
def build_sheet_name (ticker name_ja : List Char) : List Char :=
  let base := if name_ja ≠ [] then ticker ++ '_' :: name_ja else ticker
  (BAD_CHARS.foldl (fun b c => replaceChar c b) base).take 31

/-- A chart title as it lives on an openpyxl chart object.  Assigning a
Python `str` to `chart.title` goes through openpyxl's `TitleDescriptor`,
which wraps it into a `Title` object; so titles read back from
`ws._charts` are always `Title` objects, never plain strings. -/
inductive PyTitle where
  | titleObj (s : List Char)
  | pyStr (s : List Char)
deriving DecidableEq

/-- Assigning a string to `chart.title`: the descriptor stores a `Title`
object wrapping the string. -/
def set_chart_title (s : List Char) : PyTitle :=
  .titleObj s

/-- The Python comparison `c.title != chart_title` between a stored chart
title and the freshly derived `str`: openpyxl `Title` objects inherit
`Serialisable.__eq__`, which first requires both operands to have the same
class, so a `Title` never equals a `str` and the `!=` is always true. -/
def title_ne_str : PyTitle → List Char → Bool
  | .titleObj _, _ => true
  | .pyStr t, s => decide (t ≠ s)

/-- A worksheet chart object, keyed by its title. -/
structure ChartObj where
  title : PyTitle
deriving DecidableEq

/-- A worksheet structured-table object: `displayName` plus bound range. -/
structure TableObj where
  displayName : List Char
  ref : String
deriving DecidableEq

/-- The `safe_name` sanitisation of `ensure_table_and_chart`: spaces, dots
and dashes become underscores, and a digit-leading name gets a `tbl_`
prefix.  (The source indexes `safe_name[0]` and so raises on an empty name;
sheet names produced by the tool are never empty.) -/
def sanitize_table_name (sheet_name : List Char) : List Char :=
  let s := sheet_name.map (fun c => if c = ' ' then '_' else c)
  let s := s.map (fun c => if c = '.' then '_' else c)
  let s := s.map (fun c => if c = '-' then '_' else c)
  match s with
  | [] => s
  | c :: _ => if c.isDigit then "tbl_".toList ++ s else s

/-- Update the bound range of the first table with the given display name,
mirroring the mutation of `found_tbl.ref`. -/
def update_table_ref : List TableObj → List Char → String → List TableObj
  | [], _, _ => []
  | t :: ts, nm, ref =>
    if t.displayName = nm then { t with ref := ref } :: ts
    else t :: update_table_ref ts nm ref

/-- The fixed derived chart title `f"{sheet_name} 株価推移"`. -/
def chart_title_of (sheet_name : List Char) : List Char :=
  sheet_name ++ (" 株価推移").toList

/-- `ExcelHandler.ensure_table_and_chart` acting on the worksheet's table
list and chart list, given the current `ws.max_row` and the sheet name:
return unchanged when `max_row < 3`; otherwise update-or-create the
same-named table over `A3:G{max_row}`, drop every chart whose title
compares unequal-false to the derived title string (none ever does, see
`title_ne_str`), and append the freshly built chart. -/
def ensure_table_and_chart (tables : List TableObj) (charts : List ChartObj)
    (max_row : Nat) (sheet_name : List Char) : List TableObj × List ChartObj :=
  if max_row < 3 then (tables, charts)
  else
    let table_name := (sanitize_table_name sheet_name).take 255
    let table_ref := "A3:G" ++ toString max_row
    let tables' :=
      if tables.any (fun t => t.displayName = table_name) then
        update_table_ref tables table_name table_ref
      else
        tables ++ [⟨table_name, table_ref⟩]
    let ct := chart_title_of sheet_name
    let charts' := charts.filter (fun c => title_ne_str c.title ct) ++ [⟨set_chart_title ct⟩]
    (tables', charts')

/-- One `wb.save(path)` attempt against a possibly exclusively-locked
destination: a locked file raises `PermissionError` before anything is
written, leaving the on-disk content untouched; otherwise the workbook
contents replace the file. -/
def try_save {α : Type} (locked : Bool) (new : α) : Option α :=
  if locked then none else some new

/-- `StockLoggerApp.save_workbook_safely` as a state machine over the disk
content: attempt the save; on `PermissionError` ask the user, retrying on
an affirmative answer and returning `False` (disk untouched) on cancel.
`lockedAt k` is the lock state at attempt `k` and `decisions` the finite
list of user answers still available; `none` means the loop is still
waiting on the user within the modelled horizon. -/
def save_workbook_safely {α : Type} (new : α) (lockedAt : Nat → Bool) :
    List Bool → Nat → α → Option (Bool × α)
  | [], k, _disk =>
    match try_save (lockedAt k) new with
    | some disk' => some (true, disk')
    | none => none
  | d :: rest, k, disk =>
    match try_save (lockedAt k) new with
    | some disk' => some (true, disk')
    | none =>
      if d then save_workbook_safely new lockedAt rest (k + 1) disk
      else some (false, disk)

/-- The status message `run_logic` reports after the save step: success on
`True`, the user-visible cancelled status `保存キャンセル` on `False`. -/
def run_save_status (saved : Bool) : List Char :=
  if saved then ("完了しました").toList else ("保存キャンセル").toList

/-! ### Association-list map lemmas -/

/-- The keys of a keyed row map, in insertion order. -/
def keysOf (m : List (Nat × Row)) : List Nat :=
  m.map Prod.fst

/-- A map is well-formed when no key occurs twice. -/
def NodupKeys (m : List (Nat × Row)) : Prop :=
  (keysOf m).Nodup

/-- Every stored row carries its own key as a date cell; `read_row` and
`new_row` both establish this. -/
def Dated (m : List (Nat × Row)) : Prop :=
  ∀ p ∈ m, (p.2).dateC = Cell.dateVal p.1

theorem keys_updateMap_mem {m : List (Nat × Row)} {d : Nat} (r : Row)
    (h : d ∈ keysOf m) : keysOf (updateMap m d r) = keysOf m := by
  induction m with
  | nil => simp [keysOf] at h
  | cons p rest ih =>
    obtain ⟨k, v⟩ := p
    by_cases hk : k = d
    · simp [updateMap, hk, keysOf]
    · simp only [keysOf, List.map_cons] at h ⊢
      rcases List.mem_cons.1 h with rfl | h
      · exact absurd rfl hk
      · have hih := ih h
        simp only [keysOf] at hih
        simp [updateMap, hk, hih]

theorem updateMap_not_mem {m : List (Nat × Row)} {d : Nat} (r : Row)
    (h : d ∉ keysOf m) : updateMap m d r = m ++ [(d, r)] := by
  induction m with
  | nil => simp [updateMap]
  | cons p rest ih =>
    obtain ⟨k, v⟩ := p
    simp only [keysOf, List.map_cons, List.mem_cons] at h
    push_neg at h
    simp [updateMap, Ne.symm h.1, ih h.2]

theorem keys_updateMap_not_mem {m : List (Nat × Row)} {d : Nat} (r : Row)
    (h : d ∉ keysOf m) : keysOf (updateMap m d r) = keysOf m ++ [d] := by
  simp [updateMap_not_mem r h, keysOf]

theorem nodupKeys_updateMap {m : List (Nat × Row)} {d : Nat} (r : Row)
    (h : NodupKeys m) : NodupKeys (updateMap m d r) := by
  by_cases hd : d ∈ keysOf m
  · unfold NodupKeys
    rw [keys_updateMap_mem r hd]
    exact h
  · unfold NodupKeys
    rw [keys_updateMap_not_mem r hd]
    simpa [List.nodup_append] using ⟨h, hd⟩

theorem lookup_updateMap_self (m : List (Nat × Row)) (d : Nat) (r : Row) :
    lookupMap (updateMap m d r) d = some r := by
  induction m with
  | nil => simp [updateMap, lookupMap]
  | cons p rest ih =>
    obtain ⟨k, v⟩ := p
    by_cases hk : k = d
    · simp [updateMap, hk, lookupMap]
    · simp [updateMap, hk, lookupMap, ih]

theorem lookup_updateMap_ne (m : List (Nat × Row)) {d d' : Nat} (r : Row)
    (h : d' ≠ d) : lookupMap (updateMap m d r) d' = lookupMap m d' := by
  induction m with
  | nil => simp [updateMap, lookupMap, Ne.symm h]
  | cons p rest ih =>
    obtain ⟨k, v⟩ := p
    by_cases hk : k = d
    · subst hk
      simp [updateMap, lookupMap, Ne.symm h]
    · by_cases hk' : k = d'
      · subst hk'
        simp [updateMap, hk, lookupMap]
      · simp [updateMap, hk, lookupMap, hk', ih]

theorem mem_keys_iff_lookup {m : List (Nat × Row)} {d : Nat} :
    d ∈ keysOf m ↔ (lookupMap m d).isSome := by
  induction m with
  | nil => simp [keysOf, lookupMap]
  | cons p rest ih =>
    obtain ⟨k, v⟩ := p
    by_cases hk : k = d
    · simp [keysOf, lookupMap, hk]
    · simp [keysOf, lookupMap, hk, Ne.symm hk] at ih ⊢
      exact ih

theorem lookup_eq_none_of_not_mem {m : List (Nat × Row)} {d : Nat}
    (h : d ∉ keysOf m) : lookupMap m d = none := by
  rcases ho : lookupMap m d with _ | r
  · rfl
  · exact absurd (mem_keys_iff_lookup.2 (by simp [ho])) h

theorem dated_lookup {m : List (Nat × Row)} {d : Nat} {r : Row}
    (hm : Dated m) (h : lookupMap m d = some r) : r.dateC = Cell.dateVal d := by
  induction m with
  | nil => simp [lookupMap] at h
  | cons p rest ih =>
    obtain ⟨k, v⟩ := p
    by_cases hk : k = d
    · simp only [lookupMap, if_pos hk] at h
      injection h with h
      subst h
      subst hk
      simpa using hm (k, v) (by simp)
    · simp only [lookupMap, if_neg hk] at h
      exact ih (fun p hp => hm p (List.mem_cons_of_mem _ hp)) h

theorem dated_updateMap {m : List (Nat × Row)} {d : Nat} {r : Row}
    (hm : Dated m) (hr : r.dateC = Cell.dateVal d) : Dated (updateMap m d r) := by
  induction m with
  | nil =>
    intro p hp
    simp only [updateMap, List.mem_singleton] at hp
    simp [hp, hr]
  | cons q rest ih =>
    obtain ⟨k, v⟩ := q
    intro p hp
    by_cases hk : k = d
    · simp only [updateMap, if_pos hk, List.mem_cons] at hp
      rcases hp with rfl | hp
      · simpa [hk] using hr
      · exact hm p (List.mem_cons_of_mem _ hp)
    · simp only [updateMap, if_neg hk, List.mem_cons] at hp
      rcases hp with rfl | hp
      · exact hm (k, v) (by simp)
      · exact ih (fun q hq => hm q (List.mem_cons_of_mem _ hq)) p hp

/-! ### Invariants of the read and merge phases -/

theorem read_row_cases (m : List (Nat × Row)) (r : Row) :
    read_row m r = m ∨
      ∃ d, read_key r.dateC = some d ∧
        read_row m r = updateMap m d { r with dateC := .dateVal d } := by
  unfold read_row
  rcases h : read_key r.dateC with _ | d
  · exact Or.inl rfl
  · exact Or.inr ⟨d, rfl, rfl⟩

theorem nodupKeys_foldl_read_row (body : List Row) :
    ∀ acc, NodupKeys acc → NodupKeys (body.foldl read_row acc) := by
  induction body with
  | nil => intro acc h; simpa using h
  | cons r rest ih =>
    intro acc h
    simp only [List.foldl_cons]
    refine ih _ ?_
    rcases read_row_cases acc r with heq | ⟨d, _, heq⟩
    · rwa [heq]
    · rw [heq]; exact nodupKeys_updateMap _ h

theorem nodupKeys_read_body (body : List Row) : NodupKeys (read_body body) := by
  have : NodupKeys [] := by simp [NodupKeys, keysOf]
  exact nodupKeys_foldl_read_row body [] this

theorem dated_foldl_read_row (body : List Row) :
    ∀ acc, Dated acc → Dated (body.foldl read_row acc) := by
  induction body with
  | nil => intro acc h; simpa using h
  | cons r rest ih =>
    intro acc h
    simp only [List.foldl_cons]
    refine ih _ ?_
    rcases read_row_cases acc r with heq | ⟨d, _, heq⟩
    · rwa [heq]
    · rw [heq]; exact dated_updateMap h rfl

theorem dated_read_body (body : List Row) : Dated (read_body body) :=
  dated_foldl_read_row body [] (fun p hp => absurd hp (List.not_mem_nil p))

theorem new_row_dateC (fr : FetchedRow) :
    (new_row fr).dateC = Cell.dateVal fr.fdate := rfl

theorem nodupKeys_merge_fetched (df : List FetchedRow) :
    ∀ m, NodupKeys m → NodupKeys (merge_fetched m df) := by
  induction df with
  | nil => intro m h; simpa [merge_fetched] using h
  | cons fr rest ih =>
    intro m h
    simp only [merge_fetched, List.foldl_cons]
    exact ih _ (nodupKeys_updateMap _ h)

theorem dated_merge_fetched (df : List FetchedRow) :
    ∀ m, Dated m → Dated (merge_fetched m df) := by
  induction df with
  | nil => intro m h; simpa [merge_fetched] using h
  | cons fr rest ih =>
    intro m h
    simp only [merge_fetched, List.foldl_cons]
    exact ih _ (dated_updateMap h (new_row_dateC fr))

theorem nodupKeys_merged_map (body : List Row) (df : List FetchedRow) :
    NodupKeys (merged_map body df) :=
  nodupKeys_merge_fetched df _ (nodupKeys_read_body body)

theorem dated_merged_map (body : List Row) (df : List FetchedRow) :
    Dated (merged_map body df) :=
  dated_merge_fetched df _ (dated_read_body body)

/-- The value the merge leaves at date `d`: the last fetched row with that
date wins, and a date fetched nowhere keeps its pre-merge binding. -/
theorem lookup_merge_fetched (df : List FetchedRow) :
    ∀ (m : List (Nat × Row)) (d : Nat),
      lookupMap (merge_fetched m df) d =
        match df.reverse.find? (fun fr => decide (fr.fdate = d)) with
        | some fr => some (new_row fr)
        | none => lookupMap m d := by
  induction df with
  | nil => intro m d; simp [merge_fetched]
  | cons fr rest ih =>
    intro m d
    have hstep :
        merge_fetched m (fr :: rest) =
          merge_fetched (updateMap m fr.fdate (new_row fr)) rest := by
      simp [merge_fetched]
    rw [hstep, ih]
    rcases hfind : rest.reverse.find? (fun fr => decide (fr.fdate = d)) with _ | fr'
    · simp only [List.reverse_cons, List.find?_append, hfind, Option.none_orElse]
      by_cases hd : fr.fdate = d
      · subst hd
        simp [lookup_updateMap_self]
      · simp [List.find?, hd, lookup_updateMap_ne _ _ (fun h => hd h.symm)]
    · simp [List.reverse_cons, List.find?_append, hfind]

/-! ### The sorted write-back and reading it back -/

/-- The merged map re-listed in ascending key order, as it appears in the
worksheet body after step 3. -/
def sortedAssoc (m : List (Nat × Row)) : List (Nat × Row) :=
  (sorted_dates m).map (fun d => (d, (lookupMap m d).getD default_row))

theorem sorted_dates_sorted (m : List (Nat × Row)) :
    List.Sorted (· ≤ ·) (sorted_dates m) :=
  List.sorted_insertionSort _ _

theorem sorted_dates_perm (m : List (Nat × Row)) :
    List.Perm (sorted_dates m) (keysOf m) :=
  List.perm_insertionSort _ _

theorem sorted_dates_nodup {m : List (Nat × Row)} (h : NodupKeys m) :
    (sorted_dates m).Nodup :=
  ((sorted_dates_perm m).nodup_iff).2 h

theorem mem_sorted_dates {m : List (Nat × Row)} {d : Nat} :
    d ∈ sorted_dates m ↔ d ∈ keysOf m :=
  (sorted_dates_perm m).mem_iff

theorem some_getD_of_isSome {o : Option Row} (h : o.isSome) (a : Row) :
    some (o.getD a) = o := by
  cases o
  · simp at h
  · rfl

theorem written_dateC {m : List (Nat × Row)} (hdat : Dated m) {d : Nat}
    (hd : d ∈ keysOf m) :
    ((lookupMap m d).getD default_row).dateC = Cell.dateVal d := by
  obtain ⟨r, hr⟩ := Option.isSome_iff_exists.1 (mem_keys_iff_lookup.1 hd)
  rw [hr]
  exact dated_lookup hdat hr

theorem keys_sortedAssoc (m : List (Nat × Row)) :
    keysOf (sortedAssoc m) = sorted_dates m := by
  simp [keysOf, sortedAssoc, List.map_map, Function.comp_def]

theorem lookup_map_graph (ds : List Nat) (g : Nat → Row) (d : Nat) :
    lookupMap (ds.map (fun x => (x, g x))) d =
      if d ∈ ds then some (g d) else none := by
  induction ds with
  | nil => simp [lookupMap]
  | cons x ds ih =>
    by_cases hx : x = d
    · subst hx
      simp [lookupMap]
    · simp only [List.map_cons, lookupMap, if_neg hx, ih, List.mem_cons]
      have : (d = x ∨ d ∈ ds) ↔ d ∈ ds := by
        constructor
        · rintro (rfl | h)
          · exact absurd rfl hx
          · exact h
        · exact Or.inr
      rw [if_congr this rfl rfl]

theorem lookup_sortedAssoc (m : List (Nat × Row)) (d : Nat) :
    lookupMap (sortedAssoc m) d = lookupMap m d := by
  unfold sortedAssoc
  rw [lookup_map_graph]
  by_cases hd : d ∈ sorted_dates m
  · rw [if_pos hd]
    exact some_getD_of_isSome (mem_keys_iff_lookup.1 (mem_sorted_dates.1 hd)) _
  · rw [if_neg hd]
    exact (lookup_eq_none_of_not_mem (fun h => hd (mem_sorted_dates.2 h))).symm

/-- Reading back a body that consists of freshly written keyed rows yields
exactly those bindings appended in order. -/
theorem foldl_read_row_graph (ds : List Nat) (g : Nat → Row) :
    ∀ acc, ds.Nodup → (∀ d ∈ ds, (g d).dateC = Cell.dateVal d) →
      (∀ d ∈ ds, d ∉ keysOf acc) →
      (ds.map g).foldl read_row acc = acc ++ ds.map (fun d => (d, g d)) := by
  induction ds with
  | nil => intro acc _ _ _; simp
  | cons d ds ih =>
    intro acc hnd hg hfresh
    simp only [List.map_cons, List.foldl_cons]
    have hdc : (g d).dateC = Cell.dateVal d := hg d (by simp)
    have hkey : read_key (g d).dateC = some d := by
      rw [hdc]; rfl
    have hrow : ({ g d with dateC := Cell.dateVal d } : Row) = g d := by
      rw [← hdc]
    have h1 : read_row acc (g d) = acc ++ [(d, g d)] := by
      unfold read_row
      rw [hkey]
      show updateMap acc d { g d with dateC := Cell.dateVal d } = acc ++ [(d, g d)]
      rw [hrow]
      exact updateMap_not_mem _ (hfresh d (by simp))
    rw [h1, ih (acc ++ [(d, g d)]) (List.Nodup.of_cons hnd)
      (fun x hx => hg x (List.mem_cons_of_mem _ hx))
      (fun x hx => by
        simp only [keysOf, List.map_append, List.map_cons, List.map_nil,
          List.mem_append, List.mem_singleton]
        rintro (hmem | rfl)
        · exact hfresh x (List.mem_cons_of_mem _ hx) hmem
        · exact (List.nodup_cons.1 hnd).1 hx)]
    simp

theorem read_body_written (m : List (Nat × Row)) (hnd : NodupKeys m)
    (hdat : Dated m) : read_body (written_rows m) = sortedAssoc m := by
  unfold read_body written_rows sortedAssoc
  rw [foldl_read_row_graph (sorted_dates m)
    (fun d => (lookupMap m d).getD default_row) []
    (sorted_dates_nodup hnd)
    (fun d hd => written_dateC hdat (mem_sorted_dates.1 hd))
    (fun d _ => by simp [keysOf])]
  simp

theorem row_at_graph (ds : List Nat) (g : Nat → Row)
    (hg : ∀ d ∈ ds, (g d).dateC = Cell.dateVal d) (d : Nat) :
    row_at (ds.map g) d = if d ∈ ds then some (g d) else none := by
  induction ds with
  | nil => simp [row_at]
  | cons x ds ih =>
    have hx : (g x).dateC = Cell.dateVal x := hg x (by simp)
    by_cases hxd : x = d
    · subst hxd
      simp [row_at, List.find?, hx]
    · have hne : ¬((g x).dateC = Cell.dateVal d) := by
        rw [hx]
        intro h
        exact hxd (by injection h)
      have := ih (fun y hy => hg y (List.mem_cons_of_mem _ hy))
      simp only [row_at, List.map_cons, List.find?] at this ⊢
      rw [decide_eq_false hne]
      simp only [cond_false, this, List.mem_cons]
      have hiff : (d = x ∨ d ∈ ds) ↔ d ∈ ds := by
        constructor
        · rintro (rfl | h)
          · exact absurd rfl hxd
          · exact h
        · exact Or.inr
      rw [if_congr hiff rfl rfl]

theorem row_at_written (m : List (Nat × Row)) (hdat : Dated m) (d : Nat) :
    row_at (written_rows m) d = lookupMap m d := by
  unfold written_rows
  rw [row_at_graph (sorted_dates m) _
    (fun x hx => written_dateC hdat (mem_sorted_dates.1 hx))]
  by_cases hd : d ∈ sorted_dates m
  · rw [if_pos hd]
    exact some_getD_of_isSome (mem_keys_iff_lookup.1 (mem_sorted_dates.1 hd)) _
  · rw [if_neg hd]
    exact (lookup_eq_none_of_not_mem (fun h => hd (mem_sorted_dates.2 h))).symm

/-! ### Congruence and absorption of the merge phase -/

theorem merge_fetched_cons (m : List (Nat × Row)) (fr : FetchedRow)
    (rest : List FetchedRow) :
    merge_fetched m (fr :: rest) =
      merge_fetched (updateMap m fr.fdate (new_row fr)) rest := by
  simp [merge_fetched]

/-- Merging the same fetch into two maps with the same key multiset and the
same lookups keeps the key multisets and lookups aligned. -/
theorem merge_cong (df : List FetchedRow) :
    ∀ (ma mb : List (Nat × Row)), List.Perm (keysOf ma) (keysOf mb) →
      (∀ d, lookupMap ma d = lookupMap mb d) →
      List.Perm (keysOf (merge_fetched ma df)) (keysOf (merge_fetched mb df)) ∧
        (∀ d, lookupMap (merge_fetched ma df) d = lookupMap (merge_fetched mb df) d) := by
  induction df with
  | nil =>
    intro ma mb hk hl
    exact ⟨hk, hl⟩
  | cons fr rest ih =>
    intro ma mb hk hl
    rw [merge_fetched_cons, merge_fetched_cons]
    apply ih
    · by_cases hm : fr.fdate ∈ keysOf ma
      · rw [keys_updateMap_mem _ hm, keys_updateMap_mem _ (hk.mem_iff.1 hm)]
        exact hk
      · rw [keys_updateMap_not_mem _ hm,
          keys_updateMap_not_mem _ (fun h => hm (hk.mem_iff.2 h))]
        exact hk.append_right _
    · intro d
      by_cases hd : d = fr.fdate
      · subst hd
        rw [lookup_updateMap_self, lookup_updateMap_self]
      · rw [lookup_updateMap_ne _ _ hd, lookup_updateMap_ne _ _ hd]
        exact hl d

/-- Two maps with permuted keys and equal lookups produce the same sorted
write-back. -/
theorem written_ext {ma mb : List (Nat × Row)}
    (hk : List.Perm (keysOf ma) (keysOf mb))
    (hl : ∀ d, lookupMap ma d = lookupMap mb d) :
    written_rows ma = written_rows mb := by
  have hs : sorted_dates ma = sorted_dates mb := by
    apply List.eq_of_perm_of_sorted
      ((sorted_dates_perm ma).trans (hk.trans (sorted_dates_perm mb).symm))
      (sorted_dates_sorted ma) (sorted_dates_sorted mb)
  unfold written_rows
  rw [hs]
  exact List.map_congr_left (fun d _ => by rw [hl d])

theorem keys_subset_updateMap (m : List (Nat × Row)) (d : Nat) (r : Row) :
    keysOf m ⊆ keysOf (updateMap m d r) := by
  by_cases hm : d ∈ keysOf m
  · rw [keys_updateMap_mem _ hm]
    exact List.Subset.refl _
  · rw [keys_updateMap_not_mem _ hm]
    exact List.subset_append_left _ _

theorem mem_keys_updateMap_self (m : List (Nat × Row)) (d : Nat) (r : Row) :
    d ∈ keysOf (updateMap m d r) := by
  by_cases hm : d ∈ keysOf m
  · rwa [keys_updateMap_mem _ hm]
  · rw [keys_updateMap_not_mem _ hm]
    simp

theorem keys_subset_merge_fetched (df : List FetchedRow) :
    ∀ m, keysOf m ⊆ keysOf (merge_fetched m df) := by
  induction df with
  | nil => intro m; simp [merge_fetched]
  | cons fr rest ih =>
    intro m
    rw [merge_fetched_cons]
    exact (keys_subset_updateMap m fr.fdate (new_row fr)).trans (ih _)

/-- Every fetched date ends up among the merged map's keys. -/
theorem mem_keys_merge_fetched (df : List FetchedRow) :
    ∀ (m : List (Nat × Row)) (fr : FetchedRow), fr ∈ df →
      fr.fdate ∈ keysOf (merge_fetched m df) := by
  induction df with
  | nil => intro m fr h; exact absurd h (List.not_mem_nil fr)
  | cons fr0 rest ih =>
    intro m fr h
    rw [merge_fetched_cons]
    rcases List.mem_cons.1 h with rfl | h
    · exact keys_subset_merge_fetched rest _ (mem_keys_updateMap_self m fr.fdate _)
    · exact ih _ fr h

/-- Merging rows whose dates are already present changes no keys. -/
theorem keys_merge_fetched_of_mem (df : List FetchedRow) :
    ∀ m, (∀ fr ∈ df, fr.fdate ∈ keysOf m) →
      keysOf (merge_fetched m df) = keysOf m := by
  induction df with
  | nil => intro m _; simp [merge_fetched]
  | cons fr rest ih =>
    intro m hmem
    rw [merge_fetched_cons]
    have hfr : fr.fdate ∈ keysOf m := hmem fr (by simp)
    have hkeys : keysOf (updateMap m fr.fdate (new_row fr)) = keysOf m :=
      keys_updateMap_mem _ hfr
    rw [ih _ (fun fr' h' => by
      rw [hkeys]; exact hmem fr' (List.mem_cons_of_mem _ h')), hkeys]

/-- Re-merging the same fetch into an already-merged map changes neither
keys nor lookups. -/
theorem merge_fetched_absorb (m0 : List (Nat × Row)) (df : List FetchedRow) :
    keysOf (merge_fetched (merge_fetched m0 df) df) = keysOf (merge_fetched m0 df) ∧
      ∀ d, lookupMap (merge_fetched (merge_fetched m0 df) df) d =
        lookupMap (merge_fetched m0 df) d := by
  constructor
  · exact keys_merge_fetched_of_mem df _ (fun fr hfr => mem_keys_merge_fetched df m0 fr hfr)
  · intro d
    rw [lookup_merge_fetched df (merge_fetched m0 df) d]
    rcases hf : List.find? (fun fr => decide (fr.fdate = d)) df.reverse with _ | fr
    · simp only [hf]
    · rw [lookup_merge_fetched df m0 d]
      simp only [hf]

/-- The surplus-row deletion always leaves exactly the freshly written rows:
`merge_and_write_data` is the sorted write-back of the merged map. -/
theorem merge_and_write_eq_written (body : List Row) (df : List FetchedRow) :
    merge_and_write_data body df = written_rows (merged_map body df) := by
  unfold merge_and_write_data
  set w := written_rows (merged_map body df) with hw
  by_cases hcond : 3 + max body.length w.length ≥ 4 + w.length
  · rw [if_pos hcond]
    have : (w ++ body.drop w.length).take w.length = w := by
      rw [List.take_append_of_le_length (le_refl _)]
      simp
    simp only [this]
  · rw [if_neg hcond]
    have hle : body.length ≤ w.length := by omega
    rw [List.drop_eq_nil_of_le hle, List.append_nil]

/-! ### Lookup of the merged map at fetched and unfetched dates -/

theorem find_eq_of_nodup_dates :
    ∀ (l : List FetchedRow) (fr : FetchedRow),
      (l.map FetchedRow.fdate).Nodup → fr ∈ l →
      l.find? (fun x => decide (x.fdate = fr.fdate)) = some fr := by
  intro l
  induction l with
  | nil => intro fr _ h; exact absurd h (List.not_mem_nil fr)
  | cons x xs ih =>
    intro fr hnd hmem
    by_cases hx : x.fdate = fr.fdate
    · have hxfr : x = fr := by
        rcases List.mem_cons.1 hmem with rfl | hmem'
        · rfl
        · exfalso
          have hin : fr.fdate ∈ xs.map FetchedRow.fdate :=
            List.mem_map_of_mem _ hmem'
          have hnotin := (List.nodup_cons.1 hnd).1
          rw [hx] at hnotin
          exact hnotin hin
      subst hxfr
      exact List.find?_cons_of_pos _ (by simp)
    · have hfr : fr ∈ xs := by
        rcases List.mem_cons.1 hmem with rfl | hmem'
        · exact absurd rfl hx
        · exact hmem'
      rw [List.find?_cons_of_neg _ (by simpa using hx)]
      exact ih fr (List.nodup_cons.1 hnd).2 hfr

theorem lookup_merge_at_fetched (m : List (Nat × Row)) {df : List FetchedRow}
    {fr : FetchedRow} (hnd : (df.map FetchedRow.fdate).Nodup) (hfr : fr ∈ df) :
    lookupMap (merge_fetched m df) fr.fdate = some (new_row fr) := by
  rw [lookup_merge_fetched]
  have hrev : (df.reverse.map FetchedRow.fdate).Nodup := by
    rw [List.map_reverse]
    exact List.nodup_reverse.2 hnd
  rw [find_eq_of_nodup_dates df.reverse fr hrev (List.mem_reverse.2 hfr)]

theorem lookup_merge_at_unfetched (m : List (Nat × Row)) {df : List FetchedRow}
    {d : Nat} (hd : d ∉ df.map FetchedRow.fdate) :
    lookupMap (merge_fetched m df) d = lookupMap m d := by
  rw [lookup_merge_fetched]
  have hnone : List.find? (fun fr => decide (fr.fdate = d)) df.reverse = none := by
    rw [List.find?_eq_none]
    intro x hx
    simp only [decide_eq_true_eq]
    intro hxd
    exact hd (hxd ▸ List.mem_map_of_mem _ (List.mem_reverse.1 hx))
  rw [hnone]

/-! ### Claim theorems: the merge engine -/

/-- The merged Region holds the fetched row at each fetched date (the
fetched value always wins). -/
theorem row_at_merge_of_mem (body : List Row) {df : List FetchedRow}
    (hnd : (df.map FetchedRow.fdate).Nodup) {fr : FetchedRow} (hfr : fr ∈ df) :
    row_at (merge_and_write_data body df) fr.fdate = some (new_row fr) := by
  rw [merge_and_write_eq_written, row_at_written _ (dated_merged_map body df)]
  exact lookup_merge_at_fetched _ hnd hfr

/-- C1. After `merge_and_write_data`, the Row at each date present in the
FetchedRecord equals the fetched values for that date (fetched data
replaces any existing Row at the same date), and the Row at each date not
present in the FetchedRecord is retained unchanged from the existing keyed
row set loaded from the Region. -/
theorem C1_upsert_replaces_and_retains (body : List Row) (df : List FetchedRow)
    (hnd : (df.map FetchedRow.fdate).Nodup) :
    (∀ fr ∈ df, row_at (merge_and_write_data body df) fr.fdate = some (new_row fr)) ∧
      ∀ d, d ∉ df.map FetchedRow.fdate →
        row_at (merge_and_write_data body df) d = lookupMap (read_body body) d := by
  constructor
  · intro fr hfr
    exact row_at_merge_of_mem body hnd hfr
  · intro d hd
    rw [merge_and_write_eq_written, row_at_written _ (dated_merged_map body df)]
    exact lookup_merge_at_unfetched _ hd

/-- Witness for C1 at a concrete Region and fetch: date 20240102 is
refetched (and replaced), date 20240103 is fresh, date 20240101 is
retained. -/
theorem C1_upsert_replaces_and_retains_witness :
    (([⟨20240102, 5, 6, 7, 8, none, none⟩,
       ⟨20240103, 9, 10, 11, 12, some 2, none⟩] :
        List FetchedRow).map FetchedRow.fdate).Nodup ∧
    (∀ fr ∈ ([⟨20240102, 5, 6, 7, 8, none, none⟩,
              ⟨20240103, 9, 10, 11, 12, some 2, none⟩] : List FetchedRow),
      row_at (merge_and_write_data
        [⟨.dateVal 20240101, .numVal 1, .numVal 1, .numVal 1, .numVal 1, .empty, .empty⟩,
         ⟨.dateVal 20240102, .numVal 2, .numVal 2, .numVal 2, .numVal 2, .empty, .empty⟩]
        [⟨20240102, 5, 6, 7, 8, none, none⟩,
         ⟨20240103, 9, 10, 11, 12, some 2, none⟩]) fr.fdate = some (new_row fr)) ∧
    ∀ d, d ∉ ([⟨20240102, 5, 6, 7, 8, none, none⟩,
               ⟨20240103, 9, 10, 11, 12, some 2, none⟩] :
                List FetchedRow).map FetchedRow.fdate →
      row_at (merge_and_write_data
        [⟨.dateVal 20240101, .numVal 1, .numVal 1, .numVal 1, .numVal 1, .empty, .empty⟩,
         ⟨.dateVal 20240102, .numVal 2, .numVal 2, .numVal 2, .numVal 2, .empty, .empty⟩]
        [⟨20240102, 5, 6, 7, 8, none, none⟩,
         ⟨20240103, 9, 10, 11, 12, some 2, none⟩]) d =
        lookupMap (read_body
          [⟨.dateVal 20240101, .numVal 1, .numVal 1, .numVal 1, .numVal 1, .empty, .empty⟩,
           ⟨.dateVal 20240102, .numVal 2, .numVal 2, .numVal 2, .numVal 2, .empty, .empty⟩]) d := by
  refine ⟨by decide, ?_⟩
  exact C1_upsert_replaces_and_retains _ _ (by decide)

/-- C2. `merge_and_write_data` is idempotent: for every worksheet body and
every FetchedRecord, merging the same FetchedRecord twice in succession
yields a Row set identical to merging it once. -/
theorem C2_merge_idempotent (body : List Row) (df : List FetchedRow) :
    merge_and_write_data (merge_and_write_data body df) df =
      merge_and_write_data body df := by
  rw [merge_and_write_eq_written body df,
    merge_and_write_eq_written (written_rows (merged_map body df)) df]
  have hnd1 : NodupKeys (merged_map body df) := nodupKeys_merged_map body df
  have hdat1 : Dated (merged_map body df) := dated_merged_map body df
  have hread : read_body (written_rows (merged_map body df)) =
      sortedAssoc (merged_map body df) := read_body_written _ hnd1 hdat1
  show written_rows (merge_fetched (read_body (written_rows (merged_map body df))) df) =
    written_rows (merged_map body df)
  rw [hread]
  have hcong := merge_cong df (sortedAssoc (merged_map body df)) (merged_map body df)
    (by rw [keys_sortedAssoc]; exact sorted_dates_perm _)
    (lookup_sortedAssoc _)
  have habs := merge_fetched_absorb (read_body body) df
  have habs1 : keysOf (merge_fetched (merged_map body df) df) = keysOf (merged_map body df) :=
    habs.1
  have habs2 : ∀ d, lookupMap (merge_fetched (merged_map body df) df) d =
      lookupMap (merged_map body df) d := habs.2
  refine written_ext ?_ ?_
  · exact hcong.1.trans (by rw [habs1])
  · intro d
    rw [hcong.2 d, habs2 d]

/-- The date cells of the written body are exactly the sorted keys. -/
theorem filterMap_dates (ds : List Nat) (g : Nat → Row)
    (hg : ∀ d ∈ ds, (g d).dateC = Cell.dateVal d) :
    (ds.map g).filterMap (fun r => date_key r.dateC) = ds := by
  induction ds with
  | nil => simp
  | cons d ds ih =>
    have hd : (g d).dateC = Cell.dateVal d := hg d (by simp)
    simp only [List.map_cons, List.filterMap_cons, hd]
    rw [ih (fun x hx => hg x (List.mem_cons_of_mem _ hx))]
    rfl

theorem write_loop_eq_zip (l : List Row) :
    ∀ s : Nat, write_loop s l = (List.range' s l.length).zip l := by
  induction l with
  | nil => intro s; simp [write_loop]
  | cons r rs ih =>
    intro s
    rw [List.length_cons, List.range'_succ]
    simp only [write_loop, List.zip_cons_cons, ih (s + 1)]

/-- C3. After every `merge_and_write_data` call the body Rows are written
at consecutive worksheet rows starting at the fixed body-start offset
(row 4), every row carries a date value, and the dates are strictly
ascending with no duplicates. -/
theorem C3_sorted_from_body_start (body : List Row) (df : List FetchedRow) :
    (∀ r ∈ merge_and_write_data body df, ∃ d, r.dateC = Cell.dateVal d) ∧
      List.Pairwise (· < ·)
        ((merge_and_write_data body df).filterMap (fun r => date_key r.dateC)) ∧
      write_positions (merged_map body df) =
        (List.range' BODY_START (merge_and_write_data body df).length).zip
          (merge_and_write_data body df) := by
  rw [merge_and_write_eq_written]
  have hnd : NodupKeys (merged_map body df) := nodupKeys_merged_map body df
  have hdat : Dated (merged_map body df) := dated_merged_map body df
  refine ⟨?_, ?_, ?_⟩
  · intro r hr
    unfold written_rows at hr
    obtain ⟨d, hd, rfl⟩ := List.mem_map.1 hr
    exact ⟨d, written_dateC hdat (mem_sorted_dates.1 hd)⟩
  · unfold written_rows
    rw [filterMap_dates _ _ (fun d hd => written_dateC hdat (mem_sorted_dates.1 hd))]
    exact List.Sorted.lt_of_le (sorted_dates_sorted _) (sorted_dates_nodup hnd)
  · unfold write_positions
    exact write_loop_eq_zip _ _

/-- C4. When the merged Row count is smaller than the prior Row count,
`merge_and_write_data` deletes all previously-occupied rows beyond the new
last row: the final body is the pre-deletion body truncated to the merged
count, and the pre-deletion body still had the prior length. -/
theorem C4_shrink_clears_trailing (body : List Row) (df : List FetchedRow)
    (h : (merge_and_write_data body df).length < body.length) :
    merge_and_write_data body df =
      (pre_deletion_rows body df).take (merge_and_write_data body df).length ∧
      (pre_deletion_rows body df).length = body.length := by
  rw [merge_and_write_eq_written] at h ⊢
  constructor
  · unfold pre_deletion_rows
    rw [List.take_append_of_le_length (le_refl _)]
    simp
  · unfold pre_deletion_rows
    rw [List.length_append, List.length_drop]
    omega

/-- Witness for C4: two existing rows sharing one date collapse to a single
merged row, so the body shrinks from two rows to one. -/
theorem C4_shrink_clears_trailing_witness :
    (merge_and_write_data
        [⟨.dateVal 20240102, .numVal 1, .numVal 1, .numVal 1, .numVal 1, .empty, .empty⟩,
         ⟨.dateVal 20240102, .numVal 2, .numVal 2, .numVal 2, .numVal 2, .empty, .empty⟩]
        []).length <
      ([⟨.dateVal 20240102, .numVal 1, .numVal 1, .numVal 1, .numVal 1, .empty, .empty⟩,
        ⟨.dateVal 20240102, .numVal 2, .numVal 2, .numVal 2, .numVal 2, .empty, .empty⟩] :
          List Row).length ∧
    merge_and_write_data
        [⟨.dateVal 20240102, .numVal 1, .numVal 1, .numVal 1, .numVal 1, .empty, .empty⟩,
         ⟨.dateVal 20240102, .numVal 2, .numVal 2, .numVal 2, .numVal 2, .empty, .empty⟩]
        [] =
      (pre_deletion_rows
          [⟨.dateVal 20240102, .numVal 1, .numVal 1, .numVal 1, .numVal 1, .empty, .empty⟩,
           ⟨.dateVal 20240102, .numVal 2, .numVal 2, .numVal 2, .numVal 2, .empty, .empty⟩]
          []).take
        (merge_and_write_data
            [⟨.dateVal 20240102, .numVal 1, .numVal 1, .numVal 1, .numVal 1, .empty, .empty⟩,
             ⟨.dateVal 20240102, .numVal 2, .numVal 2, .numVal 2, .numVal 2, .empty, .empty⟩]
            []).length := by
  refine ⟨by decide, ?_⟩
  exact (C4_shrink_clears_trailing _ _ (by decide)).1

/-! ### Claim theorems: the name resolver -/

/-- Characters surviving the replacement passes: each is either an original
character or the underscore, and never one of the processed characters
(for processed characters other than `_` itself). -/
theorem mem_foldl_replaceChar :
    ∀ (bs : List Char) (s : List Char) (c : Char),
      c ∈ bs.foldl (fun b x => replaceChar x b) s →
      (c ∈ s ∨ c = '_') ∧ ∀ b ∈ bs, b ≠ '_' → c ≠ b := by
  intro bs
  induction bs with
  | nil =>
    intro s c h
    exact ⟨Or.inl h, by simp⟩
  | cons b bs ih =>
    intro s c h
    simp only [List.foldl_cons] at h
    obtain ⟨h1, h2⟩ := ih (replaceChar b s) c h
    have hmem : c ∈ s ∨ c = '_' := by
      rcases h1 with h1 | h1
      · obtain ⟨x, hx, hxc⟩ := List.mem_map.1 h1
        by_cases hxb : x = b
        · right
          rw [← hxc, if_pos hxb]
        · left
          rw [← hxc, if_neg hxb]
          exact hx
      · exact Or.inr h1
    refine ⟨hmem, ?_⟩
    intro b' hb' hbu
    rcases List.mem_cons.1 hb' with rfl | hb'
    · rcases h1 with h1 | h1
      · obtain ⟨x, hx, hxc⟩ := List.mem_map.1 h1
        by_cases hxb : x = b'
        · rw [← hxc, if_pos hxb]
          exact fun hh => hbu hh.symm
        · rw [← hxc, if_neg hxb]
          exact hxb
      · rw [h1]
        exact fun hh => hbu hh.symm
    · exact h2 b' hb' hbu

/-- C6. For every (instrument code, display name) input the resolved region
identifier has length at most 31, contains none of the forbidden characters
`: \ / ? * [ ]`, and the resolver is deterministic. -/
theorem C6_sheet_name_valid (ticker name_ja : List Char) :
    (build_sheet_name ticker name_ja).length ≤ 31 ∧
      (∀ c ∈ build_sheet_name ticker name_ja, c ∉ BAD_CHARS) ∧
      build_sheet_name ticker name_ja = build_sheet_name ticker name_ja := by
  refine ⟨?_, ?_, rfl⟩
  · unfold build_sheet_name
    rw [List.length_take]
    exact min_le_left _ _
  · intro c hc hbad
    unfold build_sheet_name at hc
    have hc' := List.take_subset _ _ hc
    have h2 := (mem_foldl_replaceChar BAD_CHARS _ c hc').2
    have hbadne : ∀ b ∈ BAD_CHARS, b ≠ '_' := by decide
    exact h2 c hbad (hbadne c hbad) rfl

/-- C10. The resolver is not injective: character replacement collapses
`AB:C` and `AB/C`, and the 31-character truncation collapses a 32-`A`
ticker with a ticker that differs only in its 32nd character.  Two distinct
instruments can therefore resolve to the same Region identifier. -/
theorem C10_resolver_collides :
    (build_sheet_name ("AB:C").toList [] = build_sheet_name ("AB/C").toList [] ∧
        ("AB:C").toList ≠ ("AB/C").toList) ∧
      (build_sheet_name (List.replicate 32 'A') [] =
          build_sheet_name (List.replicate 31 'A' ++ ['B']) [] ∧
        List.replicate 32 'A' ≠ List.replicate 31 'A' ++ ['B']) := by
  decide

/-! ### Claim theorems: undefined means are persisted empty -/

/-- C8. A fetched row whose 5-period (resp. 25-period) trailing mean is
undefined for lack of history carries the `NaN` mean, and in the merged
Region the corresponding mean cell is persisted as an empty cell, never as
a computed numeric placeholder. -/
theorem C8_undefined_means_persist_empty (body : List Row) (raw : List RawRow)
    (i : Nat) (hi : i < raw.length)
    (hnd : ((fetch_stock_data raw).map FetchedRow.fdate).Nodup) :
    ∃ fr, (fetch_stock_data raw)[i]? = some fr ∧
      row_at (merge_and_write_data body (fetch_stock_data raw)) fr.fdate =
        some (new_row fr) ∧
      (i + 1 < 5 →
        (new_row fr).ma5C = Cell.nanVal ∧
          persistCell (new_row fr).ma5C = Cell.empty ∧
          ∀ q : ℚ, (new_row fr).ma5C ≠ Cell.numVal q) ∧
      (i + 1 < 25 →
        (new_row fr).ma25C = Cell.nanVal ∧
          persistCell (new_row fr).ma25C = Cell.empty ∧
          ∀ q : ℚ, (new_row fr).ma25C ≠ Cell.numVal q) := by
  have hlen : i < (fetch_stock_data raw).length := by
    unfold fetch_stock_data
    simpa using hi
  obtain ⟨fr, hfr⟩ : ∃ fr, (fetch_stock_data raw)[i]? = some fr :=
    ⟨_, List.getElem?_eq_getElem hlen⟩
  refine ⟨fr, hfr, ?_, ?_, ?_⟩
  · have hmem : fr ∈ fetch_stock_data raw := by
      obtain ⟨h, rfl⟩ := List.getElem?_eq_some_iff.1 hfr
      exact List.getElem_mem ..
    exact row_at_merge_of_mem body hnd hmem
  · intro h5
    have hma : fr.ma5V = none := by
      have : (fetch_stock_data raw)[i]? =
          (raw[i]?.map (fun r => (i, r))).map (fun p =>
            ({ fdate := p.2.rdate, closeV := p.2.closeR, openV := p.2.openR,
               highV := p.2.highR, lowV := p.2.lowR,
               ma5V := rolling_mean (raw.map RawRow.closeR) 5 p.1,
               ma25V := rolling_mean (raw.map RawRow.closeR) 25 p.1 } : FetchedRow)) := by
        unfold fetch_stock_data
        rw [List.getElem?_map, List.getElem?_enum]
      rw [hfr, List.getElem?_eq_getElem hi] at this
      simp only [Option.map_some'] at this
      injection this with this
      rw [this]
      simp [rolling_mean, h5]
    simp [new_row, hma, ma_cell, persistCell]
  · intro h25
    have hma : fr.ma25V = none := by
      have : (fetch_stock_data raw)[i]? =
          (raw[i]?.map (fun r => (i, r))).map (fun p =>
            ({ fdate := p.2.rdate, closeV := p.2.closeR, openV := p.2.openR,
               highV := p.2.highR, lowV := p.2.lowR,
               ma5V := rolling_mean (raw.map RawRow.closeR) 5 p.1,
               ma25V := rolling_mean (raw.map RawRow.closeR) 25 p.1 } : FetchedRow)) := by
        unfold fetch_stock_data
        rw [List.getElem?_map, List.getElem?_enum]
      rw [hfr, List.getElem?_eq_getElem hi] at this
      simp only [Option.map_some'] at this
      injection this with this
      rw [this]
      simp [rolling_mean, h25]
    simp [new_row, hma, ma_cell, persistCell]

/-- Witness for C8: a one-row fetch (insufficient history for both means)
merged into an empty Region. -/
theorem C8_undefined_means_persist_empty_witness :
    0 < ([⟨20240101, 100, 1, 2, 3⟩] : List RawRow).length ∧
    ((fetch_stock_data [⟨20240101, 100, 1, 2, 3⟩]).map FetchedRow.fdate).Nodup ∧
    ∃ fr, (fetch_stock_data [⟨20240101, 100, 1, 2, 3⟩])[0]? = some fr ∧
      row_at (merge_and_write_data [] (fetch_stock_data [⟨20240101, 100, 1, 2, 3⟩]))
          fr.fdate = some (new_row fr) ∧
      (0 + 1 < 5 →
        (new_row fr).ma5C = Cell.nanVal ∧
          persistCell (new_row fr).ma5C = Cell.empty ∧
          ∀ q : ℚ, (new_row fr).ma5C ≠ Cell.numVal q) ∧
      (0 + 1 < 25 →
        (new_row fr).ma25C = Cell.nanVal ∧
          persistCell (new_row fr).ma25C = Cell.empty ∧
          ∀ q : ℚ, (new_row fr).ma25C ≠ Cell.numVal q) := by
  refine ⟨by decide, by decide, ?_⟩
  exact C8_undefined_means_persist_empty [] _ 0 (by decide) (by decide)

/-! ### Claim theorems: table/chart binder and save loop -/

/-- C7 counterexample. For a header-only extent (`max_row = 3`, header row
present but no data rows) `ensure_table_and_chart` does NOT skip: it
creates both a table and a chart, so the claimed no-op condition fails at
this concrete input. -/
theorem C7_counterexample_header_only_creates :
    (ensure_table_and_chart [] [] 3 ("T7203").toList).1.length = 1 ∧
      (ensure_table_and_chart [] [] 3 ("T7203").toList).2.length = 1 := by
  decide

/-- C7 (amended). `ensure_table_and_chart` skips both table and chart
creation exactly when the extent has fewer than 3 rows, i.e. when even the
header row at row 3 is missing; a header-only 3-row extent is not skipped. -/
theorem C7_skip_below_header_row (tables : List TableObj) (charts : List ChartObj)
    (max_row : Nat) (sheet_name : List Char) (h : max_row < 3) :
    ensure_table_and_chart tables charts max_row sheet_name = (tables, charts) := by
  unfold ensure_table_and_chart
  rw [if_pos h]

/-- Witness for the amended C7 at a 2-row extent. -/
theorem C7_skip_below_header_row_witness :
    2 < 3 ∧ ensure_table_and_chart [] [] 2 ("T7203").toList = ([], []) :=
  ⟨by decide, C7_skip_below_header_row [] [] 2 ("T7203").toList (by decide)⟩

/-- C5 (code bug evaluation). Two successive `ensure_table_and_chart` calls
on the same worksheet leave two charts carrying the same derived title: the
`c.title != chart_title` filter compares an openpyxl `Title` object with a
`str`, which is never equal, so no prior chart is ever removed — contrary
to the claim (and to the code's own 既存グラフ削除 comment). -/
theorem C5_two_charts_after_two_calls :
    ((ensure_table_and_chart
          (ensure_table_and_chart [] [] 10 ("MAXIS").toList).1
          (ensure_table_and_chart [] [] 10 ("MAXIS").toList).2
          10 ("MAXIS").toList).2.filter
        (fun c => decide (c.title = set_chart_title (chart_title_of ("MAXIS").toList)))).length =
      2 := by
  decide

/-- C9. If the destination file is exclusively locked at save time and the
user's first decision is cancel, the save loop returns `False` with the
on-disk content exactly as it was before the run, and the run surfaces the
user-visible cancelled status (distinct from the success status). -/
theorem C9_cancel_leaves_disk_untouched {α : Type} (new disk : α)
    (lockedAt : Nat → Bool) (decisions : List Bool) (k : Nat)
    (hlock : lockedAt k = true) (hcancel : decisions.head? = some false) :
    save_workbook_safely new lockedAt decisions k disk = some (false, disk) ∧
      run_save_status false = ("保存キャンセル").toList ∧
      run_save_status false ≠ run_save_status true := by
  obtain ⟨rest, rfl⟩ : ∃ rest, decisions = false :: rest := by
    cases decisions with
    | nil => simp at hcancel
    | cons d rest =>
      simp only [List.head?, Option.some.injEq] at hcancel
      exact ⟨rest, by rw [hcancel]⟩
  refine ⟨?_, rfl, by decide⟩
  have ht : try_save (lockedAt k) new = none := by
    simp [try_save, hlock]
  simp only [save_workbook_safely, ht]
  rfl

/-- Witness for C9: first attempt locked, single cancel decision, disk
content 0 is left unchanged. -/
theorem C9_cancel_leaves_disk_untouched_witness :
    (fun _ : Nat => true) 0 = true ∧
      ([false] : List Bool).head? = some false ∧
      (save_workbook_safely 1 (fun _ => true) [false] 0 (0 : Nat) = some (false, 0) ∧
        run_save_status false = ("保存キャンセル").toList ∧
        run_save_status false ≠ run_save_status true) :=
  ⟨rfl, rfl, C9_cancel_leaves_disk_untouched 1 0 (fun _ => true) [false] 0 rfl rfl⟩
